import Mathlib

/-!
# Verification of the pipecmd command-composition library

A shallow embedding of `src/pipecmd/command.py` and `src/pipecmd/runner.py`.
Commands are immutable values; execution is modelled as a pure function from
an environment (assigning an exit code to each spawned process, numbered in
spawn order) and a spawn log to either a raised failure or a process handle
together with the extended spawn log.  Each spawn event records the argv, the
resolved stdin/stdout wiring and whether the call waited, which is exactly the
observable interaction with the platform spawn capability.
-/

namespace Pipecmd

/-- The `Undefined` sentinel of `types.py`: a value that is either the
sentinel (`undefined`) or a present value, distinct from any explicit value
(including the explicit null `FileSpec.fnone`). -/
inductive UndefOr (α : Type) where
  | undefined
  | val (a : α)
  deriving DecidableEq, Repr

/-- `Undefined.get_default(a, b)` with the last value always defined. -/
def UndefOr.getD {α : Type} : UndefOr α → α → α
  | .undefined, d => d
  | .val a, _ => a

/-- `Undefined.get_default(a, b, d)`: first non-undefined value. -/
def UndefOr.getD2 {α : Type} : UndefOr α → UndefOr α → α → α
  | .undefined, b, d => b.getD d
  | .val a, _, _ => a

/-- A `FileOrPath` value as storable/passable in the source: Python `None`
(`fnone`), the `subprocess.PIPE` / `subprocess.DEVNULL` specials, a path
(string or `Path`), or an already-open stream (file object / a process's
stdout), identified by a stream id. -/
inductive FileSpec where
  | fnone
  | pipe
  | devnull
  | path (p : String)
  | handle (sid : Nat)
  deriving DecidableEq, Repr

/-- File-opening mode, as used by `Command._get_file`. -/
inductive Mode where
  | rb
  | wb
  | ab
  deriving DecidableEq, Repr

/-- What a stdin/stdout argument resolves to just before `subprocess.Popen`:
`inherit` is Python `None` (no redirection); `opened p m` is a fresh stream
obtained by `open(p, m)`. -/
inductive ResolvedFile where
  | inherit
  | pipe
  | devnull
  | stream (sid : Nat)
  | opened (p : String) (mode : Mode)
  deriving DecidableEq, Repr

/-- The `check` policy: Python `bool | int`. -/
inductive CheckPolicy where
  | cb (b : Bool)
  | ci (n : Int)
  deriving DecidableEq, Repr

/-- The exit-code test of `Command.run`:
`if check is True: check = 0` followed by
`if check is not False and returncode != check: raise`. -/
def checkViolated : CheckPolicy → Int → Bool
  | .cb true, rc => rc != 0
  | .cb false, _ => false
  | .ci n, rc => rc != n

/-- The leaf `Command` dataclass of `command.py`. -/
structure Command where
  cmd : String
  args : List String := []
  input : UndefOr FileSpec := .undefined
  output : UndefOr FileSpec := .undefined
  append : UndefOr Bool := .undefined
  check : CheckPolicy := .cb false
  deriving DecidableEq, Repr

/-- `Command._get_file(file, fallback, mode)`: explicit value wins, else the
command's own default, else no redirection; a path is opened fresh with the
given mode; anything else is passed through. -/
def getFile (file fallback : UndefOr FileSpec) (mode : Mode) : ResolvedFile :=
  let f : FileSpec :=
    match file with
    | .undefined =>
      match fallback with
      | .undefined => .fnone
      | .val g => g
    | .val f => f
  match f with
  | .fnone => .inherit
  | .pipe => .pipe
  | .devnull => .devnull
  | .path p => .opened p mode
  | .handle s => .stream s

/-- The `RedirectArgs` typed dict: a kwargs record where each key is either
absent (`none`) or present with a value (which may be the explicit null
`FileSpec.fnone`). -/
structure RedirectArgs where
  input : Option FileSpec := none
  output : Option FileSpec := none
  append : Option Bool := none
  deriving DecidableEq, Repr

/-- Python truthiness of the kwargs dict: `if in_args:` is false exactly when
no key is present. -/
def RedirectArgs.isEmpty (k : RedirectArgs) : Bool :=
  k.input.isNone && k.output.isNone && k.append.isNone

/-- `Command.redirect`: a literal `None` for input or output is converted to
`DEVNULL`, then the provided keys replace the corresponding fields
(`dataclasses.replace`). -/
def Command.redirect (c : Command) (k : RedirectArgs) : Command :=
  let k1 := if k.input = some FileSpec.fnone then { k with input := some FileSpec.devnull } else k
  let k2 := if k1.output = some FileSpec.fnone then { k1 with output := some FileSpec.devnull } else k1
  { c with
    input := match k2.input with | some v => .val v | none => c.input
    output := match k2.output with | some v => .val v | none => c.output
    append := match k2.append with | some v => .val v | none => c.append }

/-- `BaseCommandChain._split_args`: when an `input` key is present the kwargs
are split into `({input}, rest)`; otherwise both components are the original
kwargs dict (this aliasing is what the source does). -/
def splitArgs (k : RedirectArgs) : RedirectArgs × RedirectArgs :=
  if k.input.isSome then
    ({ input := k.input }, { k with input := none })
  else (k, k)

/-- The three chain classes of `command.py`. -/
inductive ChainKind where
  | pipe
  | andThen
  | orElse
  deriving DecidableEq, Repr

/-- A `BaseCommand` node: either a leaf `Command` or a chain
(`CommandChain` / `CommandAndChain` / `CommandOrChain`), carrying the chain's
own `check` field (inherited from the `BaseCommand` dataclass) and its
member list `cmds`. -/
inductive BaseCommand where
  | leaf (c : Command)
  | chain (kind : ChainKind) (check : CheckPolicy) (cmds : List BaseCommand)

mutual

/-- Structural size of a command tree (fuel for `redirectD`). -/
def BaseCommand.csize : BaseCommand → Nat
  | .leaf _ => 1
  | .chain _ _ cmds => 1 + csizeList cmds

/-- Structural size of a member list. -/
def csizeList : List BaseCommand → Nat
  | [] => 0
  | c :: rest => BaseCommand.csize c + csizeList rest

end

/-- Fuel-indexed form of `BaseCommand.redirect` / `BaseCommandChain.redirect`.
The fuel only serves Lean's termination checker; `BaseCommand.redirect` below
supplies the tree's structural size, which always suffices since redirection
preserves the node structure.  For a chain: split the kwargs, update `cmds[0]` with the
input part if truthy, then update `cmds[-1]` of the resulting list with the
output part if truthy (a chain with no members would raise `IndexError` in
Python; it is left unchanged here and never arises in the claims). -/
def redirectD : Nat → BaseCommand → RedirectArgs → BaseCommand
  | _, .leaf c, k => .leaf (c.redirect k)
  | 0, b, _ => b
  | n + 1, .chain kind chk cmds, k =>
    let p := splitArgs k
    let cmds1 :=
      if p.1.isEmpty then cmds
      else
        match cmds with
        | [] => []
        | c :: rest => redirectD n c p.1 :: rest
    let cmds2 :=
      if p.2.isEmpty then cmds1
      else
        match cmds1.getLast? with
        | none => cmds1
        | some lastc => cmds1.dropLast ++ [redirectD n lastc p.2]
    .chain kind chk cmds2

/-- `redirect` on an arbitrary command node. -/
def BaseCommand.redirect (b : BaseCommand) (k : RedirectArgs) : BaseCommand :=
  redirectD b.csize b k

/-- The `check` attribute of a node (leaf field, or the chain's own field). -/
def BaseCommand.getCheck : BaseCommand → CheckPolicy
  | .leaf c => c.check
  | .chain _ chk _ => chk

/-- `BaseCommand.pipe_to` / `CommandChain.pipe_to` with `_concat_cmd`'s
flattening: a pipe chain absorbs another pipe chain's members, appends any
other node, and a non-pipe node forms a fresh two-member pipe chain carrying
the left operand's `check`. -/
def BaseCommand.pipe_to (self other : BaseCommand) : BaseCommand :=
  match self with
  | .chain .pipe chk cmds =>
    match other with
    | .chain .pipe _ ocmds => .chain .pipe chk (cmds ++ ocmds)
    | o => .chain .pipe chk (cmds ++ [o])
  | s => .chain .pipe s.getCheck [s, other]

/-- `cmd > f` (`BaseCommand.__gt__`): sugar for `redirect(output=f)`. -/
def BaseCommand.gtFile (b : BaseCommand) (f : FileSpec) : BaseCommand :=
  b.redirect { output := some f }

/-- One interaction with the platform spawn capability: argv, the resolved
stdin/stdout wiring handed to `subprocess.Popen`, and whether the `run` call
waited for the process. -/
structure SpawnEvent where
  cmd : String
  args : List String
  stdin : ResolvedFile
  stdout : ResolvedFile
  wait : Bool
  deriving DecidableEq, Repr

/-- A process handle (`subprocess.Popen`): its spawn index, argv,
`returncode` (set only once waited) and `stdout` stream (present only when
spawned with `stdout=PIPE`; the stream id is the spawn index). -/
structure Proc where
  id : Nat
  cmd : String
  args : List String
  returncode : Option Int
  stdoutStream : Option Nat
  deriving DecidableEq, Repr

/-- `proc.stdout` of a freshly spawned process. -/
def outStream (stdoutR : ResolvedFile) (pid : Nat) : Option Nat :=
  if stdoutR = ResolvedFile.pipe then some pid else none

/-- A raised exception: `subprocess.CalledProcessError(returncode, args)`, or
the `IndexError` an empty chain's `run` would hit at `self.cmds[-1]`. -/
inductive Failure where
  | commandFailed (returncode : Int) (cmd : String) (args : List String)
  | emptyChain
  deriving DecidableEq, Repr

/-- The environment: exit code of the n-th spawned process (in spawn order). -/
def Env : Type := Nat → Int

/-- The keyword arguments of every `run` method. -/
structure RunArgs where
  stdin : UndefOr FileSpec := .undefined
  stdout : UndefOr FileSpec := .undefined
  append : UndefOr Bool := .undefined
  wait : Bool := true
  check : UndefOr CheckPolicy := .undefined
  deriving DecidableEq, Repr

/-- `Command.run`: resolve stdin (mode `rb`), the append flag (default
false), stdout (mode `ab`/`wb` by the resolved append flag) and the check
policy; spawn; if waiting, apply the check test and raise
`CalledProcessError` with the actual exit code on violation. -/
def Command.run (env : Env) (c : Command) (a : RunArgs) (st : List SpawnEvent) :
    Except Failure (Proc × List SpawnEvent) :=
  let stdinR := getFile a.stdin c.input .rb
  let app := UndefOr.getD2 a.append c.append false
  let stdoutR := getFile a.stdout c.output (if app then .ab else .wb)
  let chk := UndefOr.getD a.check c.check
  let pid := st.length
  let st' := st ++ [⟨c.cmd, c.args, stdinR, stdoutR, a.wait⟩]
  let rc := env pid
  if a.wait then
    if checkViolated chk rc then .error (.commandFailed rc c.cmd c.args)
    else .ok (⟨pid, c.cmd, c.args, some rc, outStream stdoutR pid⟩, st')
  else .ok (⟨pid, c.cmd, c.args, none, outStream stdoutR pid⟩, st')

/-- `stdin = proc.stdout` between pipe stages (Python `None` when the
process has no captured stdout). -/
def procStdin (p : Proc) : UndefOr FileSpec :=
  match p.stdoutStream with
  | some sid => .val (.handle sid)
  | none => .val .fnone

mutual

/-- `BaseCommand.run`, dispatching to the leaf or the chain algorithm. -/
def runCmd (env : Env) : BaseCommand → RunArgs → List SpawnEvent →
    Except Failure (Proc × List SpawnEvent)
  | .leaf c, a, st => Command.run env c a st
  | .chain .pipe _ cmds, a, st => runPipe env cmds a st
  | .chain .andThen _ cmds, a, st => runAnd env cmds a st
  | .chain .orElse _ cmds, a, st => runOr env cmds a st

/-- `CommandChain.run`: every member but the last runs with `stdout=PIPE`,
`wait=False` and no check/append; its stdout becomes the next stdin; the
last member gets the caller's arguments (stdin only if still first). -/
def runPipe (env : Env) : List BaseCommand → RunArgs → List SpawnEvent →
    Except Failure (Proc × List SpawnEvent)
  | [], _, _ => .error .emptyChain
  | [c], a, st => runCmd env c a st
  | c :: c2 :: rest, a, st =>
    match runCmd env c { stdin := a.stdin, stdout := .val .pipe, append := .undefined, wait := false, check := .undefined } st with
    | .error e => .error e
    | .ok (p, st') => runPipe env (c2 :: rest) { a with stdin := procStdin p } st'

/-- `CommandAndChain.run`: every member but the last runs synchronously with
the current stdin (cleared after the first) and the caller's check; a
non-zero returncode returns that handle; otherwise the last member gets the
caller's stdout/append/wait/check (stdin is not forwarded to it). -/
def runAnd (env : Env) : List BaseCommand → RunArgs → List SpawnEvent →
    Except Failure (Proc × List SpawnEvent)
  | [], _, _ => .error .emptyChain
  | [c], a, st => runCmd env c { a with stdin := .undefined } st
  | c :: c2 :: rest, a, st =>
    match runCmd env c { stdin := a.stdin, stdout := .undefined, append := .undefined, wait := true, check := a.check } st with
    | .error e => .error e
    | .ok (p, st') =>
      if p.returncode = some 0 then runAnd env (c2 :: rest) { a with stdin := .undefined } st'
      else .ok (p, st')

/-- `CommandOrChain.run`: as `runAnd` with the test inverted — a zero
returncode returns that handle; otherwise continue (the last member again
gets the caller's stdout/append/wait/check but not stdin). -/
def runOr (env : Env) : List BaseCommand → RunArgs → List SpawnEvent →
    Except Failure (Proc × List SpawnEvent)
  | [], _, _ => .error .emptyChain
  | [c], a, st => runCmd env c { a with stdin := .undefined } st
  | c :: c2 :: rest, a, st =>
    match runCmd env c { stdin := a.stdin, stdout := .undefined, append := .undefined, wait := true, check := a.check } st with
    | .error e => .error e
    | .ok (p, st') =>
      if p.returncode = some 0 then .ok (p, st')
      else runOr env (c2 :: rest) { a with stdin := .undefined } st'

end

/-- `BaseCommand.iter_lines`: `self.run(wait=False, stdout=subprocess.PIPE)`
(stdin/append/check not passed; the encoding kwarg is not observable here). -/
def iterLinesRun (env : Env) (b : BaseCommand) (st : List SpawnEvent) :
    Except Failure (Proc × List SpawnEvent) :=
  runCmd env b { stdin := .undefined, stdout := .val .pipe, append := .undefined, wait := false, check := .undefined } st

/-- `BaseCommand.__str__`: `self.run(stdout=subprocess.PIPE, encoding="utf8", wait=True)`. -/
def strRun (env : Env) (b : BaseCommand) (st : List SpawnEvent) :
    Except Failure (Proc × List SpawnEvent) :=
  runCmd env b { stdin := .undefined, stdout := .val .pipe, append := .undefined, wait := true, check := .undefined } st

/-- `BaseCommand.__bytes__`: `self.run(stdout=subprocess.PIPE, encoding=None, wait=True)`. -/
def bytesRun (env : Env) (b : BaseCommand) (st : List SpawnEvent) :
    Except Failure (Proc × List SpawnEvent) :=
  runCmd env b { stdin := .undefined, stdout := .val .pipe, append := .undefined, wait := true, check := .undefined } st

/-- A user-supplied transform held by a `CommandRunner`: either a raw
`from_proc` function, or the wrapper `runner.py` builds around a `from_str` /
`from_bytes` function (decoding captured stdout first).  Functions are
identified by an id; their bodies are never invoked by the configuration
logic under verification. -/
inductive GetResult where
  | raw (fid : Nat)
  | strConv (fid : Nat)
  | bytesConv (fid : Nat)
  deriving DecidableEq, Repr

/-- The `CommandRunner` dataclass of `runner.py`. -/
structure CommandRunner where
  get_result : GetResult
  wait : Bool := true
  check : UndefOr CheckPolicy := .undefined
  capture : Bool := false
  deriving DecidableEq, Repr

/-- The `ValueError` of `CommandRunner.__call__` for conflicting transforms. -/
inductive ConfigError where
  | invalidConfiguration
  deriving DecidableEq, Repr

/-- `CommandRunner.__call__`: count the provided transforms and fail when
more than one is given; a `from_str` (resp. `from_bytes`) argument becomes a
decoding wrapper and sets the local `capture` to `True`; then
`dataclasses.replace` applies every provided field to a copy of `self`. -/
def CommandRunner.call (r : CommandRunner) (from_str from_bytes from_proc : UndefOr Nat)
    (capture : UndefOr Bool) (wait : UndefOr Bool) (check : UndefOr CheckPolicy) :
    Except ConfigError CommandRunner :=
  let converts := (match from_str with | .undefined => 0 | .val _ => 1)
    + (match from_bytes with | .undefined => 0 | .val _ => 1)
    + (match from_proc with | .undefined => 0 | .val _ => 1)
  if 1 < converts then .error .invalidConfiguration
  else
    let fp : UndefOr GetResult := match from_proc with | .undefined => .undefined | .val f => .val (.raw f)
    let s1 : UndefOr GetResult × UndefOr Bool :=
      match from_str with
      | .val f => (.val (.strConv f), .val true)
      | .undefined =>
        match from_bytes with
        | .val f => (.val (.bytesConv f), .val true)
        | .undefined => (fp, capture)
    .ok { r with
      get_result := match s1.1 with | .val g => g | .undefined => r.get_result
      capture := match s1.2 with | .val b => b | .undefined => r.capture
      check := match check with | .val c => .val c | .undefined => r.check
      wait := match wait with | .val b => b | .undefined => r.wait }

/-! ## Statement helpers

The following definitions only serve to state the claims: they describe the
spawn events the execution algorithms are claimed to produce, and are proved
equal to what `runCmd` actually does. -/

/-- The spawn event of a leaf member run synchronously by the AndThen/OrElse
loop: stdin as threaded, stdout/append resolved from the member's own
defaults only, waited. -/
def syncRunEvent (sin : UndefOr FileSpec) (c : Command) : SpawnEvent :=
  ⟨c.cmd, c.args, getFile sin c.input .rb,
   getFile .undefined c.output (if UndefOr.getD2 .undefined c.append false then .ab else .wb), true⟩

/-- The events of a block of leaf members run synchronously in order, the
given stdin applying only to the first. -/
def syncRunEvents (sin : UndefOr FileSpec) : List Command → List SpawnEvent
  | [] => []
  | c :: rest => syncRunEvent sin c :: syncRunEvents .undefined rest

/-- The stdin left for the member following a synchronous block: unchanged
when the block is empty, cleared to the sentinel otherwise. -/
def stdinAfter (sin : UndefOr FileSpec) (pre : List Command) : UndefOr FileSpec :=
  if pre.isEmpty then sin else .undefined

/-- The events of a block of leaf pipe stages starting at spawn index
`base`: every stage has stdout forced to the pipe and is not waited; the
given stdin applies only to the first, and each later stage reads the
previous stage's output stream. -/
def pipeRunEvents (sin : UndefOr FileSpec) (base : Nat) : List Command → List SpawnEvent
  | [] => []
  | c :: rest =>
    ⟨c.cmd, c.args, getFile sin c.input .rb, .pipe, false⟩ ::
      pipeRunEvents (.val (.handle base)) (base + 1) rest

/-- The stdin left for the member following a block of pipe stages: the last
stage's output stream (or the original stdin when the block is empty). -/
def pipeStdinAfter (sin : UndefOr FileSpec) (base : Nat) (pre : List Command) : UndefOr FileSpec :=
  if pre.isEmpty then sin else .val (.handle (base + pre.length - 1))

/-! ### Concrete inputs used by counterexamples and witnesses -/

/-- Every spawned process exits with code 1. -/
def envOne : Env := fun _ => 1

/-- The first spawned process exits 0, all later ones exit 1. -/
def envW : Env := fun n => if n = 0 then 0 else 1

/-- The first spawned process exits 1, all later ones exit 0. -/
def envV : Env := fun n => if n = 0 then 1 else 0

/-- A plain unchecked command named `t`. -/
def cW0 : Command := { cmd := "t" }

/-- A plain unchecked command named `f`. -/
def cWf : Command := { cmd := "f" }

/-- A plain unchecked command named `p`. -/
def cWp : Command := { cmd := "p" }

/-- A command named `c` with its own `check=True` policy. -/
def cChk : Command := { cmd := "c", check := .cb true }

/-- A plain unchecked command named `m`. -/
def cWm : Command := { cmd := "m" }


/-- Each synchronously run leaf member contributes exactly one spawn event. -/
theorem syncRunEvents_length (s : UndefOr FileSpec) (l : List Command) :
    (syncRunEvents s l).length = l.length := by
  induction l generalizing s with
  | nil => rfl
  | cons c rest ih => simp [syncRunEvents, ih]

/-- Loop invariant of `CommandAndChain.run`: a block of leaf members that all
exit 0 (and whose resolved checks accept exit code 0) is run synchronously in
order, stdin going only to the first, after which the loop continues on the
remaining members with the stdin argument cleared. -/
theorem runAnd_zeroPre (env : Env) (pre : List Command) (rest : List BaseCommand)
    (a : RunArgs) (st : List SpawnEvent) (hrest : rest ≠ [])
    (hpass : ∀ c ∈ pre, checkViolated (UndefOr.getD a.check c.check) 0 = false)
    (hzero : ∀ j < pre.length, env (st.length + j) = 0) :
    runAnd env (pre.map .leaf ++ rest) a st
      = runAnd env rest { a with stdin := stdinAfter a.stdin pre }
          (st ++ syncRunEvents a.stdin pre) := by
  induction pre generalizing a st with
  | nil => simp [stdinAfter, syncRunEvents]
  | cons c pcs ih =>
    rcases h : pcs.map BaseCommand.leaf ++ rest with _ | ⟨c2, rest2⟩
    · rcases List.append_eq_nil.mp h with ⟨-, h2⟩
      exact absurd h2 hrest
    · have h0 : env st.length = 0 := by
        have := hzero 0 (by simp)
        simpa using this
      have hc : checkViolated (UndefOr.getD a.check c.check) 0 = false :=
        hpass c (by simp)
      simp only [List.map_cons, List.cons_append, h]
      rw [runAnd]
      simp only [runCmd, Command.run, h0, hc]
      simp only [← h]
      simp
      have hfold := ih { a with stdin := .undefined } (st ++ [syncRunEvent a.stdin c])
        (fun cc hcc => hpass cc (by simp [hcc]))
        (fun j hj => by
          have h2 := hzero (j + 1) (by simpa using Nat.succ_lt_succ hj)
          have h3 : (st ++ [syncRunEvent a.stdin c]).length + j = st.length + (j + 1) := by
            simp
            omega
          rw [h3]
          exact h2)
      simp only [syncRunEvent] at hfold
      rw [hfold]
      have hs : stdinAfter (UndefOr.undefined : UndefOr FileSpec) pcs = .undefined := by
        by_cases hh : pcs = [] <;> simp [stdinAfter, hh]
      simp [stdinAfter, hs, syncRunEvents, syncRunEvent]


/-- Loop invariant of `CommandOrChain.run`: a block of unchecked leaf members
that all exit non-zero is run synchronously in order, stdin going only to the
first, after which the loop continues with the stdin argument cleared. -/
theorem runOr_nonzeroPre (env : Env) (pre : List Command) (rest : List BaseCommand)
    (a : RunArgs) (st : List SpawnEvent) (hrest : rest ≠ [])
    (hoff : ∀ c ∈ pre, UndefOr.getD a.check c.check = .cb false)
    (hnz : ∀ j < pre.length, env (st.length + j) ≠ 0) :
    runOr env (pre.map .leaf ++ rest) a st
      = runOr env rest { a with stdin := stdinAfter a.stdin pre }
          (st ++ syncRunEvents a.stdin pre) := by
  induction pre generalizing a st with
  | nil => simp [stdinAfter, syncRunEvents]
  | cons c pcs ih =>
    rcases h : pcs.map BaseCommand.leaf ++ rest with _ | ⟨c2, rest2⟩
    · rcases List.append_eq_nil.mp h with ⟨-, h2⟩
      exact absurd h2 hrest
    · have h0 : env st.length ≠ 0 := by
        have := hnz 0 (by simp)
        simpa using this
      have hc : UndefOr.getD a.check c.check = .cb false := hoff c (by simp)
      simp only [List.map_cons, List.cons_append, h]
      rw [runOr]
      simp only [runCmd, Command.run, hc]
      simp only [← h]
      simp [checkViolated, h0]
      have hfold := ih { a with stdin := .undefined } (st ++ [syncRunEvent a.stdin c])
        (fun cc hcc => hoff cc (by simp [hcc]))
        (fun j hj => by
          have h2 := hnz (j + 1) (by simpa using Nat.succ_lt_succ hj)
          have h3 : (st ++ [syncRunEvent a.stdin c]).length + j = st.length + (j + 1) := by
            simp
            omega
          rw [h3]
          exact h2)
      simp only [syncRunEvent] at hfold
      rw [hfold]
      have hs : stdinAfter (UndefOr.undefined : UndefOr FileSpec) pcs = .undefined := by
        by_cases hh : pcs = [] <;> simp [stdinAfter, hh]
      simp [stdinAfter, hs, syncRunEvents, syncRunEvent]

/-- An explicit `stdout=PIPE` argument overrides any default. -/
theorem getFile_pipe (fallback : UndefOr FileSpec) (m : Mode) :
    getFile (.val .pipe) fallback m = .pipe := rfl

/-- Loop invariant of `CommandChain.run`: a block of leaf pipe stages is
spawned in order with stdout forced to the pipe and no waiting, each stage's
output stream becoming the next stdin, after which the loop continues with
the last stage's output stream as the stdin argument. -/
theorem runPipe_pre (env : Env) (pre : List Command) (rest : List BaseCommand)
    (a : RunArgs) (st : List SpawnEvent) (hrest : rest ≠ []) :
    runPipe env (pre.map .leaf ++ rest) a st
      = runPipe env rest { a with stdin := pipeStdinAfter a.stdin st.length pre }
          (st ++ pipeRunEvents a.stdin st.length pre) := by
  induction pre generalizing a st with
  | nil => simp [pipeStdinAfter, pipeRunEvents]
  | cons c pcs ih =>
    rcases h : pcs.map BaseCommand.leaf ++ rest with _ | ⟨c2, rest2⟩
    · rcases List.append_eq_nil.mp h with ⟨-, h2⟩
      exact absurd h2 hrest
    · simp only [List.map_cons, List.cons_append, h]
      rw [runPipe]
      simp only [runCmd, Command.run]
      simp only [← h]
      simp [getFile_pipe, outStream, procStdin]
      have hfold := ih { a with stdin := .val (.handle st.length) }
        (st ++ [(⟨c.cmd, c.args, getFile a.stdin c.input .rb, .pipe, false⟩ : SpawnEvent)]) 
      simp only [List.length_append, List.length_cons, List.length_nil] at hfold
      rw [hfold]
      have e1 : { stdin := pipeStdinAfter (UndefOr.val (FileSpec.handle st.length)) (st.length + (0 + 1)) pcs, stdout := a.stdout, append := a.append, wait := a.wait, check := a.check }
          = { a with stdin := pipeStdinAfter a.stdin st.length (c :: pcs) } := by
        by_cases hh : pcs = [] <;> simp [pipeStdinAfter, hh]
      rw [e1]
      simp [pipeRunEvents]


/-- Threading the cleared stdin through a block leaves it cleared. -/
theorem stdinAfter_undefined (pre : List Command) :
    stdinAfter (UndefOr.undefined : UndefOr FileSpec) pre = .undefined := by
  unfold stdinAfter
  split <;> rfl

/-- The events of a synchronous block followed by one more member. -/
theorem syncRunEvents_snoc (s : UndefOr FileSpec) (pre : List Command) (cf : Command) :
    syncRunEvents s (pre ++ [cf])
      = syncRunEvents s pre ++ [syncRunEvent (stdinAfter s pre) cf] := by
  induction pre generalizing s with
  | nil => simp [syncRunEvents, stdinAfter]
  | cons c pcs ih => simp [syncRunEvents, ih, stdinAfter_undefined, stdinAfter]

/-- Claim C5: a leaf `Command.run` raises if and only if `wait` is true and
the resolved check policy's condition is unmet: with resolved check `True` it
raises exactly when the exit code is non-zero, with integer `N` exactly when
the exit code differs from `N`, with `False` never; with `wait=False` no
exit-code exception is ever raised; the raised failure carries the actual
exit code (and the command's argv). -/
theorem command_run_raise_iff (env : Env) (c : Command) (a : RunArgs) (st : List SpawnEvent) :
    (∀ e, Command.run env c a st = .error e ↔
        (a.wait = true ∧ checkViolated (UndefOr.getD a.check c.check) (env st.length) = true
          ∧ e = .commandFailed (env st.length) c.cmd c.args))
    ∧ (UndefOr.getD a.check c.check = .cb true →
        ((∃ e, Command.run env c a st = .error e) ↔ a.wait = true ∧ env st.length ≠ 0))
    ∧ (∀ n : Int, UndefOr.getD a.check c.check = .ci n →
        ((∃ e, Command.run env c a st = .error e) ↔ a.wait = true ∧ env st.length ≠ n))
    ∧ (UndefOr.getD a.check c.check = .cb false → ∀ e, Command.run env c a st ≠ .error e)
    ∧ (a.wait = false → ∀ e, Command.run env c a st ≠ .error e) := by
  have key : ∀ e, Command.run env c a st = .error e ↔
      (a.wait = true ∧ checkViolated (UndefOr.getD a.check c.check) (env st.length) = true
        ∧ e = .commandFailed (env st.length) c.cmd c.args) := by
    intro e
    unfold Command.run
    by_cases hw : a.wait
    · by_cases hv : checkViolated (UndefOr.getD a.check c.check) (env st.length) = true
      · simp [hw, hv]
        exact eq_comm
      · simp [hw, hv]
    · simp [hw]
  refine ⟨key, ?_, ?_, ?_, ?_⟩
  · intro hcb
    simp [key, hcb, checkViolated]
  · intro n hci
    simp [key, hci, checkViolated]
  · intro hcb e
    simp [key, hcb, checkViolated]
  · intro hw e
    simp [key, hw]


/-- Claim C8, counterexample: a chain whose own `check_policy` is `True`
holding one member whose own policy is the default `False`, run without an
explicit `check` argument while the process exits 1, returns the handle
normally — the member is *not* checked against the chain's `check_policy`
(the claimed inheritance would have raised `CommandFailed`). -/
theorem chain_check_not_inherited_cex :
    runCmd envOne (.chain .pipe (.cb true) [.leaf { cmd := "false" }])
        ⟨.undefined, .undefined, .undefined, true, .undefined⟩ []
      = .ok (⟨0, "false", [], some 1, none⟩, [⟨"false", [], .inherit, .inherit, true⟩]) := by
  simp [runCmd, runPipe, Command.run, envOne, checkViolated, UndefOr.getD, UndefOr.getD2,
    getFile, outStream]


/-- Claim C2: running an AndThen chain of leaf commands (with checking off,
cf. C6): the members before the last run synchronously (`wait=true`) in
order with stdin given only to the first; at the first member whose exit
code is non-zero the run stops — exactly the members up to and including it
are spawned, its handle (with its exit code) is returned, and the caller's
stdout/append are never applied to any member (the run is independent of
them); if all prior members exit 0, the last member runs with the caller's
original stdout/append/wait/check and its run's result is returned. -/
theorem andThen_run_exec (env : Env) (chk : CheckPolicy) (a : RunArgs) (st : List SpawnEvent)
    (ha : a.check = .undefined) :
    (∀ pre cf post, post ≠ [] →
      (∀ c ∈ pre, c.check = .cb false) → cf.check = .cb false →
      (∀ j < pre.length, env (st.length + j) = 0) →
      env (st.length + pre.length) ≠ 0 →
      ∀ x y,
        runCmd env (.chain .andThen chk (List.map .leaf (pre ++ cf :: post)))
            { a with stdout := x, append := y } st
          = .ok (⟨st.length + pre.length, cf.cmd, cf.args, some (env (st.length + pre.length)),
              outStream (getFile .undefined cf.output
                (if UndefOr.getD2 .undefined cf.append false then .ab else .wb))
                (st.length + pre.length)⟩,
              st ++ syncRunEvents a.stdin (pre ++ [cf])))
    ∧ (∀ pre clast,
      (∀ c ∈ pre, c.check = .cb false) →
      (∀ j < pre.length, env (st.length + j) = 0) →
      runCmd env (.chain .andThen chk (List.map .leaf (pre ++ [clast]))) a st
        = Command.run env clast { a with stdin := .undefined }
            (st ++ syncRunEvents a.stdin pre)) := by
  constructor
  · intro pre cf post hpost hpre hcf hzero hnz x y
    have hmap : List.map BaseCommand.leaf (pre ++ cf :: post)
        = pre.map .leaf ++ (.leaf cf :: post.map .leaf) := by simp
    simp only [runCmd, hmap]
    rw [runAnd_zeroPre env pre (.leaf cf :: post.map .leaf) { a with stdout := x, append := y } st
      (by simp)
      (fun c hc => by simp [ha, UndefOr.getD, hpre c hc, checkViolated])
      hzero]
    rcases hp : post.map BaseCommand.leaf with _ | ⟨c2, r2⟩
    · exact absurd (List.map_eq_nil_iff.mp hp) hpost
    · rw [runAnd]
      have hlen : (st ++ syncRunEvents a.stdin pre).length = st.length + pre.length := by
        simp [syncRunEvents_length]
      simp only [runCmd, Command.run, hlen, ha, UndefOr.getD, hcf, checkViolated]
      simp [hnz]
      rw [syncRunEvents_snoc]
      simp [syncRunEvent]
  · intro pre clast hpre hzero
    have hmap : List.map BaseCommand.leaf (pre ++ [clast])
        = pre.map .leaf ++ [BaseCommand.leaf clast] := by simp
    simp only [runCmd, hmap]
    rw [runAnd_zeroPre env pre [.leaf clast] a st (by simp)
      (fun c hc => by simp [ha, UndefOr.getD, hpre c hc, checkViolated])
      hzero]
    rw [runAnd]
    simp [runCmd]


/-- Claim C3: running an OrElse chain of leaf commands (with checking off):
the members before the last run synchronously in order with stdin only to
the first; the run stops at the first member that exits 0, returning its
handle, with no later member spawned and the caller's stdout/append never
applied; if all prior members exit non-zero, the last member runs with the
caller's original stdout/append/wait/check and its run's result is
returned. -/
theorem orElse_run_exec (env : Env) (chk : CheckPolicy) (a : RunArgs) (st : List SpawnEvent)
    (ha : a.check = .undefined) :
    (∀ pre cf post, post ≠ [] →
      (∀ c ∈ pre, c.check = .cb false) → cf.check = .cb false →
      (∀ j < pre.length, env (st.length + j) ≠ 0) →
      env (st.length + pre.length) = 0 →
      ∀ x y,
        runCmd env (.chain .orElse chk (List.map .leaf (pre ++ cf :: post)))
            { a with stdout := x, append := y } st
          = .ok (⟨st.length + pre.length, cf.cmd, cf.args, some (env (st.length + pre.length)),
              outStream (getFile .undefined cf.output
                (if UndefOr.getD2 .undefined cf.append false then .ab else .wb))
                (st.length + pre.length)⟩,
              st ++ syncRunEvents a.stdin (pre ++ [cf])))
    ∧ (∀ pre clast,
      (∀ c ∈ pre, c.check = .cb false) →
      (∀ j < pre.length, env (st.length + j) ≠ 0) →
      runCmd env (.chain .orElse chk (List.map .leaf (pre ++ [clast]))) a st
        = Command.run env clast { a with stdin := .undefined }
            (st ++ syncRunEvents a.stdin pre)) := by
  constructor
  · intro pre cf post hpost hpre hcf hnz hsucc x y
    have hmap : List.map BaseCommand.leaf (pre ++ cf :: post)
        = pre.map .leaf ++ (.leaf cf :: post.map .leaf) := by simp
    simp only [runCmd, hmap]
    rw [runOr_nonzeroPre env pre (.leaf cf :: post.map .leaf) { a with stdout := x, append := y } st
      (by simp)
      (fun c hc => by simp [ha, UndefOr.getD, hpre c hc])
      hnz]
    rcases hp : post.map BaseCommand.leaf with _ | ⟨c2, r2⟩
    · exact absurd (List.map_eq_nil_iff.mp hp) hpost
    · rw [runOr]
      have hlen : (st ++ syncRunEvents a.stdin pre).length = st.length + pre.length := by
        simp [syncRunEvents_length]
      simp only [runCmd, Command.run, hlen, ha, UndefOr.getD, hcf, checkViolated]
      simp [hsucc]
      rw [syncRunEvents_snoc]
      simp [syncRunEvent]
  · intro pre clast hpre hnz
    have hmap : List.map BaseCommand.leaf (pre ++ [clast])
        = pre.map .leaf ++ [BaseCommand.leaf clast] := by simp
    simp only [runCmd, hmap]
    rw [runOr_nonzeroPre env pre [.leaf clast] a st (by simp)
      (fun c hc => by simp [ha, UndefOr.getD, hpre c hc])
      hnz]
    rw [runOr]
    simp [runCmd]

/-- Claim C4: running a Pipe chain of leaf commands: every member except the
last is spawned with stdout forced to the pipe and `wait=false`, its output
stream becoming the next member's stdin; the explicit stdin argument reaches
only the very first member; the last member runs with the caller's original
stdout/append/wait/check (and the last pipe stream as stdin), and its run's
result — its process handle — is returned. -/
theorem pipe_run_exec (env : Env) (chk : CheckPolicy) (a : RunArgs) (st : List SpawnEvent) :
    (∀ pre clast,
      runCmd env (.chain .pipe chk (List.map .leaf (pre ++ [clast]))) a st
        = Command.run env clast { a with stdin := pipeStdinAfter a.stdin st.length pre }
            (st ++ pipeRunEvents a.stdin st.length pre))
    ∧ (∀ sin base l, ∀ e ∈ pipeRunEvents sin base l, e.stdout = .pipe ∧ e.wait = false) := by
  constructor
  · intro pre clast
    have hmap : List.map BaseCommand.leaf (pre ++ [clast])
        = pre.map .leaf ++ [BaseCommand.leaf clast] := by simp
    simp only [runCmd, hmap]
    rw [runPipe_pre env pre [.leaf clast] a st (by simp)]
    rw [runPipe]
    simp [runCmd]
  · intro sin base l
    induction l generalizing sin base with
    | nil => simp [pipeRunEvents]
    | cons c rest ih =>
      intro e he
      rcases (by simpa [pipeRunEvents] using he) with h | h
      · simp [h]
      · exact ih _ _ e h

/-- Claim C6: the `check` argument of a chain `run` is forwarded verbatim to
every synchronous member: with `check=True`, an AndThen run raises
`CommandFailed` at the first member exiting non-zero (instead of returning
its handle), and an OrElse run raises at the first failing member even
though a later alternative exists. -/
theorem check_forwarded_every_member (env : Env) (chk : CheckPolicy) (a : RunArgs) (st : List SpawnEvent)
    (ha : a.check = .val (.cb true)) :
    (∀ pre cf post, post ≠ [] →
      (∀ j < pre.length, env (st.length + j) = 0) →
      env (st.length + pre.length) ≠ 0 →
      runCmd env (.chain .andThen chk (List.map .leaf (pre ++ cf :: post))) a st
        = .error (.commandFailed (env (st.length + pre.length)) cf.cmd cf.args))
    ∧ (∀ cf rest, rest ≠ [] → env st.length ≠ 0 →
      runCmd env (.chain .orElse chk (List.map .leaf (cf :: rest))) a st
        = .error (.commandFailed (env st.length) cf.cmd cf.args)) := by
  constructor
  · intro pre cf post hpost hzero hnz
    have hmap : List.map BaseCommand.leaf (pre ++ cf :: post)
        = pre.map .leaf ++ (.leaf cf :: post.map .leaf) := by simp
    simp only [runCmd, hmap]
    rw [runAnd_zeroPre env pre (.leaf cf :: post.map .leaf) a st
      (by simp)
      (fun c hc => by simp [ha, UndefOr.getD, checkViolated])
      hzero]
    rcases hp : post.map BaseCommand.leaf with _ | ⟨c2, r2⟩
    · exact absurd (List.map_eq_nil_iff.mp hp) hpost
    · rw [runAnd]
      have hlen : (st ++ syncRunEvents a.stdin pre).length = st.length + pre.length := by
        simp [syncRunEvents_length]
      simp only [runCmd, Command.run, hlen, ha, UndefOr.getD, checkViolated]
      simp [hnz]
  · intro cf rest hrest hnz
    rcases hp : rest.map BaseCommand.leaf with _ | ⟨c2, r2⟩
    · exact absurd (List.map_eq_nil_iff.mp hp) hrest
    · simp only [runCmd, List.map_cons, hp]
      rw [runOr]
      simp only [runCmd, Command.run, ha, UndefOr.getD, checkViolated]
      simp [hnz]


/-- Claim C1, the code deviates: redirecting a two-member pipe chain's
output (`(a | b) > "f"`) rewrites `members[0]` as well — both members end up
with `output = "f"` — because `_split_args` returns the whole kwargs dict as
the input part whenever no `input` key is present, contradicting the claimed
invariant (and the method's own docstring) that only `members[last]` is
affected. -/
theorem chain_output_redirect_rewrites_first :
    ((BaseCommand.leaf { cmd := "a" }).pipe_to (.leaf { cmd := "b" })).gtFile (.path "f")
      = .chain .pipe (.cb false)
          [.leaf { cmd := "a", output := .val (.path "f") },
           .leaf { cmd := "b", output := .val (.path "f") }] := by
  have h : ((BaseCommand.leaf { cmd := "a" }).pipe_to (.leaf { cmd := "b" })).csize = 3 := by
    simp [BaseCommand.pipe_to, BaseCommand.getCheck, BaseCommand.csize, csizeList]
  simp only [BaseCommand.gtFile, BaseCommand.redirect, h]
  rfl

/-- Claim C9: reconfiguring a `CommandRunner` accepts at most one of
`from_str` / `from_bytes` / `from_proc` — it fails with the invalid-
configuration error exactly when more than one is given — and providing a
string (resp. bytes) transform wraps it in a decoding converter and forces
`capture=true` in the returned adapter (even overriding an explicit
`capture` argument), the remaining fields following the provided arguments
or the original adapter. -/
theorem runner_call_exec (r : CommandRunner) (fs fb fp : UndefOr Nat) (cap w : UndefOr Bool)
    (chk : UndefOr CheckPolicy) :
    (r.call fs fb fp cap w chk = .error .invalidConfiguration ↔
      ((fs ≠ .undefined ∧ fb ≠ .undefined) ∨ (fs ≠ .undefined ∧ fp ≠ .undefined) ∨ (fb ≠ .undefined ∧ fp ≠ .undefined)))
    ∧ (∀ f, fs = .val f → fb = .undefined → fp = .undefined →
        r.call fs fb fp cap w chk = .ok { r with
          get_result := .strConv f, capture := true,
          wait := match w with | .val b => b | .undefined => r.wait,
          check := match chk with | .val x => .val x | .undefined => r.check })
    ∧ (∀ f, fb = .val f → fs = .undefined → fp = .undefined →
        r.call fs fb fp cap w chk = .ok { r with
          get_result := .bytesConv f, capture := true,
          wait := match w with | .val b => b | .undefined => r.wait,
          check := match chk with | .val x => .val x | .undefined => r.check }) := by
  refine ⟨?_, ?_, ?_⟩
  · rcases fs with _ | f <;> rcases fb with _ | g <;> rcases fp with _ | h <;>
      simp [CommandRunner.call]
  · rintro f rfl rfl rfl
    simp [CommandRunner.call]
  · rintro f rfl rfl rfl
    simp [CommandRunner.call]

/-- Claim C10, amended to leaf commands: `iter_lines` spawns with
`wait=false` and an absent check argument, so it always returns the handle
(never raising, whatever the command's check policy) with stdout captured;
`str`/`bytes` materialization waits and applies the command's own check
policy, raising exactly on violation — so a checked, failing leaf raises when
materialized to a string but not when its lines are iterated. -/
theorem leaf_materialization_exec (env : Env) (c : Command) (st : List SpawnEvent) :
    (iterLinesRun env (.leaf c) st
       = .ok (⟨st.length, c.cmd, c.args, none, some st.length⟩,
           st ++ [⟨c.cmd, c.args, getFile .undefined c.input .rb, .pipe, false⟩]))
    ∧ (∀ e, strRun env (.leaf c) st = .error e ↔
        (checkViolated c.check (env st.length) = true
          ∧ e = .commandFailed (env st.length) c.cmd c.args))
    ∧ (bytesRun env (.leaf c) st = strRun env (.leaf c) st)
    ∧ (c.check = .cb true → env st.length ≠ 0 →
        strRun env (.leaf c) st = .error (.commandFailed (env st.length) c.cmd c.args)
          ∧ ∀ e, iterLinesRun env (.leaf c) st ≠ .error e) := by
  have hiter : iterLinesRun env (.leaf c) st
      = .ok (⟨st.length, c.cmd, c.args, none, some st.length⟩,
          st ++ [⟨c.cmd, c.args, getFile .undefined c.input .rb, .pipe, false⟩]) := by
    simp [iterLinesRun, runCmd, Command.run, getFile_pipe, outStream]
  have hstr : ∀ e, strRun env (.leaf c) st = .error e ↔
      (checkViolated c.check (env st.length) = true
        ∧ e = .commandFailed (env st.length) c.cmd c.args) := by
    intro e
    unfold strRun
    simp only [runCmd, Command.run]
    by_cases hv : checkViolated c.check (env st.length) = true
    · simp [UndefOr.getD, hv]
      exact eq_comm
    · simp [UndefOr.getD, hv]
  refine ⟨hiter, hstr, rfl, ?_⟩
  intro hcb hnz
  constructor
  · exact (hstr _).mpr ⟨by simp [hcb, checkViolated, hnz], rfl⟩
  · intro e he
    rw [hiter] at he
    exact Except.noConfusion he








/-- Witness for C2 on a three-member chain where the second member fails. -/
theorem andThen_run_exec_witness :
    runCmd envW (.chain .andThen (.cb false) [.leaf cW0, .leaf cWf, .leaf cWp])
        ⟨.undefined, .val .devnull, .val false, true, .undefined⟩ []
      = .ok (⟨1, "f", [], some 1, none⟩,
          [⟨"t", [], .inherit, .inherit, true⟩, ⟨"f", [], .inherit, .inherit, true⟩]) := by
  have h := (andThen_run_exec envW (.cb false) ⟨.undefined, .undefined, .undefined, true, .undefined⟩ [] rfl).1
    [cW0] cWf [cWp] (by simp) (by decide) (by decide) (by decide) (by decide)
    (.val .devnull) (.val false)
  simpa [cW0, cWf, envW, syncRunEvents, syncRunEvent, getFile, outStream, stdinAfter,
    UndefOr.getD2, UndefOr.getD] using h

/-- Witness for C3 on a three-member chain where the second member succeeds. -/
theorem orElse_run_exec_witness :
    runCmd envV (.chain .orElse (.cb false) [.leaf cW0, .leaf cWf, .leaf cWp])
        ⟨.undefined, .val .devnull, .val false, true, .undefined⟩ []
      = .ok (⟨1, "f", [], some 0, none⟩,
          [⟨"t", [], .inherit, .inherit, true⟩, ⟨"f", [], .inherit, .inherit, true⟩]) := by
  have h := (orElse_run_exec envV (.cb false) ⟨.undefined, .undefined, .undefined, true, .undefined⟩ [] rfl).1
    [cW0] cWf [cWp] (by simp) (by decide) (by decide) (by decide) (by decide)
    (.val .devnull) (.val false)
  simpa [cW0, cWf, envV, syncRunEvents, syncRunEvent, getFile, outStream, stdinAfter,
    UndefOr.getD2, UndefOr.getD] using h

/-- Witness for C4 on a two-stage pipe reading from a file. -/
theorem pipe_run_exec_witness :
    (runCmd envW (.chain .pipe (.cb false) [.leaf cW0, .leaf cWp])
        ⟨.val (.path "in"), .undefined, .undefined, true, .undefined⟩ []
      = .ok (⟨1, "p", [], some 1, none⟩,
          [⟨"t", [], .opened "in" .rb, .pipe, false⟩, ⟨"p", [], .stream 0, .inherit, true⟩]))
    ∧ ((⟨"t", [], .opened "in" .rb, .pipe, false⟩ : SpawnEvent).stdout = .pipe
        ∧ (⟨"t", [], .opened "in" .rb, .pipe, false⟩ : SpawnEvent).wait = false) := by
  constructor
  · have h := (pipe_run_exec envW (.cb false) ⟨.val (.path "in"), .undefined, .undefined, true, .undefined⟩ []).1
      [cW0] cWp
    simpa [cW0, cWp, envW, pipeRunEvents, pipeStdinAfter, Command.run, getFile, outStream,
      UndefOr.getD2, UndefOr.getD, checkViolated] using h
  · have h := (pipe_run_exec envW (.cb false) ⟨.val (.path "in"), .undefined, .undefined, true, .undefined⟩ []).2
      (.val (.path "in")) 0 [cW0] ⟨"t", [], .opened "in" .rb, .pipe, false⟩
      (by simp [pipeRunEvents, cW0, getFile])
    exact h

/-- Witness for C5: a checked command exiting 1 raises with that code. -/
theorem command_run_raise_iff_witness :
    Command.run envOne cChk ⟨.undefined, .undefined, .undefined, true, .undefined⟩ []
      = .error (.commandFailed 1 "c" []) :=
  ((command_run_raise_iff envOne cChk ⟨.undefined, .undefined, .undefined, true, .undefined⟩ []).1
    (.commandFailed 1 "c" [])).mpr ⟨rfl, by decide, by decide⟩

/-- Witness for C6: with `check=True`, both chain kinds raise at the first
failing member. -/
theorem check_forwarded_every_member_witness :
    (runCmd envOne (.chain .andThen (.cb false) [.leaf cWf, .leaf cWp])
        ⟨.undefined, .undefined, .undefined, true, .val (.cb true)⟩ []
      = .error (.commandFailed 1 "f" []))
    ∧ (runCmd envOne (.chain .orElse (.cb false) [.leaf cWf, .leaf cWp])
        ⟨.undefined, .undefined, .undefined, true, .val (.cb true)⟩ []
      = .error (.commandFailed 1 "f" [])) := by
  constructor
  · have h := (check_forwarded_every_member envOne (.cb false)
        ⟨.undefined, .undefined, .undefined, true, .val (.cb true)⟩ [] rfl).1
      [] cWf [cWp] (by simp) (by decide) (by decide)
    simpa [cWf, envOne] using h
  · have h := (check_forwarded_every_member envOne (.cb false)
        ⟨.undefined, .undefined, .undefined, true, .val (.cb true)⟩ [] rfl).2
      cWf [cWp] (by simp) (by decide)
    simpa [cWf, envOne] using h

/-- Witness for C9: a `from_str` reconfiguration forces `capture=true` even
though `capture=false` was passed explicitly. -/
theorem runner_call_exec_witness :
    CommandRunner.call ⟨.raw 0, true, .undefined, false⟩ (.val 5) .undefined .undefined (.val false)
        .undefined .undefined
      = .ok ⟨.strConv 5, true, .undefined, true⟩ := by
  have h := (runner_call_exec ⟨.raw 0, true, .undefined, false⟩ (.val 5) .undefined .undefined (.val false)
      .undefined .undefined).2.1 5 rfl rfl rfl
  simpa using h

/-- Witness for C10: the checked failing leaf raises under `str` but yields
a handle under `iter_lines`. -/
theorem leaf_materialization_exec_witness :
    (strRun envOne (.leaf cChk) [] = .error (.commandFailed 1 "c" []))
    ∧ (iterLinesRun envOne (.leaf cChk) []
        = .ok (⟨0, "c", [], none, some 0⟩, [⟨"c", [], .inherit, .pipe, false⟩])) := by
  constructor
  · have h := ((leaf_materialization_exec envOne cChk []).2.2.2 (by decide) (by decide)).1
    simpa [cChk, envOne] using h
  · have h := (leaf_materialization_exec envOne cChk []).1
    simpa [cChk, getFile] using h

/-- Claim C10, counterexample to the unrestricted claim: for a chain,
`iter_lines`'s `wait=false` applies only to the final member; a non-final
AndThen member still runs synchronously under its own `check=True` policy
and raises when it exits 1. -/
theorem iterLines_chain_raises_cex :
    iterLinesRun envOne (.chain .andThen (.cb false)
      [.leaf { cmd := "false", check := .cb true }, .leaf { cmd := "echo" }]) []
      = .error (.commandFailed 1 "false" []) := by
  simp [iterLinesRun, runCmd, runAnd, Command.run, envOne, checkViolated, UndefOr.getD, getFile]


/-- Claim C8, amended: a Chain Node's own `check` field is never consulted
when the chain runs — running any chain is independent of its
`check_policy`; members' effective checks come only from the run's explicit
`check` argument or each member's own policy. -/
theorem chain_run_ignores_chain_check (env : Env) (k : ChainKind) (chk chk' : CheckPolicy)
    (cmds : List BaseCommand) (a : RunArgs) (st : List SpawnEvent) :
    runCmd env (.chain k chk cmds) a st = runCmd env (.chain k chk' cmds) a st := by
  cases k <;> simp [runCmd]


/-- Claim C7, the code deviates for AndThen/OrElse: a single-member AndThen
chain run with an explicit stdin spawns its member with *inherited* stdin
(the final `run` call of `CommandAndChain.run` does not forward stdin),
whereas running the member directly opens and wires the given file; a
single-member Pipe chain does behave exactly like the direct run. -/
theorem singleton_and_chain_drops_stdin :
    (runCmd envOne (.chain .andThen (.cb false) [.leaf cWm])
        ⟨.val (.path "in"), .undefined, .undefined, true, .undefined⟩ []
      = .ok (⟨0, "m", [], some 1, none⟩, [⟨"m", [], .inherit, .inherit, true⟩]))
    ∧ (runCmd envOne (.leaf cWm)
        ⟨.val (.path "in"), .undefined, .undefined, true, .undefined⟩ []
      = .ok (⟨0, "m", [], some 1, none⟩, [⟨"m", [], .opened "in" .rb, .inherit, true⟩]))
    ∧ (runCmd envOne (.chain .pipe (.cb false) [.leaf cWm])
        ⟨.val (.path "in"), .undefined, .undefined, true, .undefined⟩ []
      = runCmd envOne (.leaf cWm)
        ⟨.val (.path "in"), .undefined, .undefined, true, .undefined⟩ []) := by
  refine ⟨?_, ?_, ?_⟩
  · simp [runCmd, runAnd, Command.run, cWm, envOne, checkViolated, UndefOr.getD,
      UndefOr.getD2, getFile, outStream]
  · simp [runCmd, Command.run, cWm, envOne, checkViolated, UndefOr.getD,
      UndefOr.getD2, getFile, outStream]
  · simp [runCmd, runPipe]

end Pipecmd
